import Mathlib

/-!
Shallow embedding of the command argument-parsing and dispatch framework
of the repository (the Parser class and the Command lifecycle class).

Conventions of the embedding:
* JavaScript strings are Lean `String`s; all string helpers the source relies
  on (`split`, `trim`, `toLowerCase`, `indexOf`, `splice`, template literals)
  are modelled explicitly below so that every definition reduces by kernel
  computation.  Case folding is modelled on the ASCII range, which covers
  every literal the source compares against.
* JavaScript objects used as string-keyed dictionaries are association lists
  in insertion order (the enumeration order of string keys in JS objects).
* Exceptions (`throw new FatalError(msg)`) are modelled with `Except Fatal`.
* JavaScript numbers: `parseInt` results are modelled as exact integers
  (IEEE rounding above 2^53 is out of scope for every property considered);
  `parseFloat` results are modelled as an abstract value carrying the source
  token, since no property here inspects a float's numeric value — only
  whether the parse produced NaN.
-/

/-- JS whitespace characters recognised by `trim` / numeric parsing
(ASCII whitespace, NBSP and the BOM; the exotic Unicode space characters
are irrelevant to every comparison the source performs). -/
def jsWhitespace (c : Char) : Bool :=
  c = ' ' || c = '\t' || c = '\n' || c = '\r' ||
  c.toNat = 11 || c.toNat = 12 || c.toNat = 160 || c.toNat = 0xFEFF

/-- ASCII case folding of one character, as performed by
`String.prototype.toLowerCase` on the ASCII range. -/
def jsLowerChar (c : Char) : Char :=
  match c with
  | 'A' => 'a' | 'B' => 'b' | 'C' => 'c' | 'D' => 'd' | 'E' => 'e'
  | 'F' => 'f' | 'G' => 'g' | 'H' => 'h' | 'I' => 'i' | 'J' => 'j'
  | 'K' => 'k' | 'L' => 'l' | 'M' => 'm' | 'N' => 'n' | 'O' => 'o'
  | 'P' => 'p' | 'Q' => 'q' | 'R' => 'r' | 'S' => 's' | 'T' => 't'
  | 'U' => 'u' | 'V' => 'v' | 'W' => 'w' | 'X' => 'x' | 'Y' => 'y'
  | 'Z' => 'z'
  | other => other

/-- Model of `value.toLowerCase()`. -/
def jsToLower (s : String) : String :=
  ⟨s.data.map jsLowerChar⟩

/-- Model of `trim` on a character list: drop leading and trailing whitespace. -/
def jsTrimList (cs : List Char) : List Char :=
  ((cs.dropWhile jsWhitespace).reverse.dropWhile jsWhitespace).reverse

/-- Model of `value.trim()`. -/
def jsTrim (s : String) : String :=
  ⟨jsTrimList s.data⟩

/-- Model of `String.prototype.split` with a one-character separator, on lists. -/
def splitOnChar (sep : Char) : List Char → List (List Char)
  | [] => [[]]
  | c :: rest =>
    match splitOnChar sep rest with
    | [] => [[]]
    | g :: gs => if c = sep then [] :: g :: gs else (c :: g) :: gs

/-- Model of `s.split(sep)` for a one-character separator string (the source only
splits on the one-character separators ' ', '|' and '-'). -/
def jsSplit (sep : Char) (s : String) : List String :=
  (splitOnChar sep s.data).map (fun l => ⟨l⟩)

/-- Model of `String.prototype.replace(pat, '')` with a one-character pattern:
removes the first occurrence only. -/
def removeFirst (pat : Char) : List Char → List Char
  | [] => []
  | c :: rest => if c = pat then rest else c :: removeFirst pat rest

/-- Model of `s.replace(pat, '')` for a one-character pattern string. -/
def jsReplaceEmpty (pat : Char) (s : String) : String :=
  ⟨removeFirst pat s.data⟩

/-- Model of `args.indexOf(t)` on a list of strings, as an `Option Nat`
(`none` models the -1 result). -/
def jsIndexOf : List String → String → Option Nat
  | [], _ => none
  | a :: as, t => if a = t then some 0 else (jsIndexOf as t).map (· + 1)

/-- Model of `args.splice(i, k)`: the list with `k` elements removed at index `i`
(the source only uses the removing form of splice). -/
def jsSplice (l : List String) (i k : Nat) : List String :=
  l.take i ++ l.drop (i + k)

/-- The FatalError class of the repository: an error carrying a message
(`isFatal` is constantly true and therefore not modelled as data). -/
structure Fatal where
  msg : String
deriving DecidableEq, Repr

/-- Decimal digit value of a character, if any. -/
def decDigit (c : Char) : Option Nat :=
  if '0' ≤ c ∧ c ≤ '9' then some (c.toNat - 48) else none

/-- Hexadecimal digit value of a character, if any. -/
def hexDigit (c : Char) : Option Nat :=
  if '0' ≤ c ∧ c ≤ '9' then some (c.toNat - 48)
  else if 'a' ≤ c ∧ c ≤ 'f' then some (c.toNat - 87)
  else if 'A' ≤ c ∧ c ≤ 'F' then some (c.toNat - 55)
  else none

/-- Value of the longest digit prefix of `cs` in base `b`;
`none` when the prefix is empty (the NaN case). -/
def digitsVal (dig : Char → Option Nat) (b : Nat) (cs : List Char) : Option Nat :=
  let ds := cs.takeWhile (fun c => (dig c).isSome)
  match ds with
  | [] => none
  | _ :: _ => some (ds.foldl (fun a c => a * b + (dig c).getD 0) 0)

/-- JS `parseInt(value)` with the radix argument omitted, per ECMA-262:
skip leading whitespace, read an optional sign, then — default radix 10,
except that a leading "0x"/"0X" selects radix 16 — take the longest digit
prefix; NaN (`none`) when that prefix is empty. -/
def jsParseInt (s : String) : Option Int :=
  let cs := s.data.dropWhile jsWhitespace
  let sgn : Int := match cs with | '-' :: _ => -1 | _ => 1
  let cs2 : List Char := match cs with
    | '-' :: t => t
    | '+' :: t => t
    | t => t
  match cs2 with
  | '0' :: c :: t =>
    if c = 'x' ∨ c = 'X' then (digitsVal hexDigit 16 t).map (fun n => sgn * n)
    else (digitsVal decDigit 10 cs2).map (fun n => sgn * n)
  | _ => (digitsVal decDigit 10 cs2).map (fun n => sgn * n)

/-- Modelled from the spec: "parses a base-10 integer" — `parseInt(value, 10)`
semantics with the radix fixed to 10 (no hexadecimal prefix rule): skip
leading whitespace, read an optional sign, take the longest decimal-digit
prefix; NaN (`none`) when that prefix is empty.  Used only to compare the
spec's wording with the source's `parseInt(value)` (radix omitted). -/
def specParseIntBase10 (s : String) : Option Int :=
  let cs := s.data.dropWhile jsWhitespace
  let sgn : Int := match cs with | '-' :: _ => -1 | _ => 1
  let cs2 : List Char := match cs with
    | '-' :: t => t
    | '+' :: t => t
    | t => t
  (digitsVal decDigit 10 cs2).map (fun n => sgn * n)

/-- Whether JS `parseFloat(value)` yields a number (true) or NaN (false):
after leading whitespace and an optional sign, the string must begin with
a decimal digit, with a '.' followed by a decimal digit, or with the
literal "Infinity". -/
def jsParseFloatDefined (s : String) : Bool :=
  let cs := s.data.dropWhile jsWhitespace
  let cs2 : List Char := match cs with
    | '-' :: t => t
    | '+' :: t => t
    | t => t
  "Infinity".data.isPrefixOf cs2 ||
  (match cs2 with
   | c :: _ => (decDigit c).isSome
   | [] => false) ||
  (match cs2 with
   | '.' :: c :: _ => (decDigit c).isSome
   | _ => false)

/-- A value produced by `castToType`.  Floats carry the source token rather
than an IEEE value: no property in this development reads a float's numeric
value, only whether the parse succeeded. -/
inductive JSVal where
  | str : String → JSVal
  | int : Int → JSVal
  | float : String → JSVal
  | bool : Bool → JSVal
deriving DecidableEq, Repr

/-- Model of `Parser.castToType(value, type)`: the falsy check `!type` treats an absent or empty
type as "string". -/
def castToType (value : String) (type : Option String) : Except Fatal JSVal :=
  let t := match type with
    | none => "string"
    | some s => if s = "" then "string" else s
  if t = "string" then
    .ok (.str value)
  else if t = "int" then
    match jsParseInt value with
    | none => .error ⟨s!"{value} is not of type int"⟩
    | some n => .ok (.int n)
  else if t = "float" then
    if jsParseFloatDefined value then .ok (.float value)
    else .error ⟨s!"{value} is not of type float"⟩
  else if t = "boolean" then
    .ok (.bool (jsTrim (jsToLower value) = "true" ||
                jsTrim (jsToLower value) = "t" ||
                jsTrim value = "1"))
  else
    .error ⟨s!"invalid type received: {t}"⟩

/-- One compiled pattern entry: the name of a positional parameter and
whether it is required. -/
structure PatternParam where
  name : String
  required : Bool
deriving DecidableEq, Repr

/-- A registered argument or flag: the stored object
`{shortHand, type: 'string', ...opts}`. -/
structure RegSpec where
  shortHand : Option String := none
  type : String := "string"
  validate : Option (JSVal → Bool) := none
  description : Option String := none

/-- A registered parameter: the stored object `{type: 'string', ...opts}`. -/
structure ParamSpec where
  type : String := "string"
  validate : Option (JSVal → Bool) := none
  description : Option String := none

/-- The options object callers may pass to `argument` / `parameter` / `flag`.
`none` models an absent key, so JS object-spread merging over the defaults is
faithful.  No caller in the repository passes a `shortHand` key, so that key
is not modelled in the options. -/
structure RegOpts where
  type : Option String := none
  validate : Option (JSVal → Bool) := none
  description : Option String := none

/-- JS object property write `o[k] = v`: overwrite in place when the key
exists, else append (string keys enumerate in insertion order). -/
def objSet (l : List (String × α)) (k : String) (v : α) : List (String × α) :=
  if l.any (fun p => p.1 = k) then
    l.map (fun p => if p.1 = k then (k, v) else p)
  else l ++ [(k, v)]

/-- JS object property read `o[k]`. -/
def objGet (l : List (String × α)) (k : String) : Option α :=
  (l.find? (fun p => p.1 = k)).map (fun p => p.2)

/-- JS `o.hasOwnProperty(k)` / `k in o`. -/
def hasKey (l : List (String × α)) (k : String) : Bool :=
  l.any (fun p => p.1 = k)

/-- The Parser instance state: the compiled pattern and the three
registration dictionaries. -/
structure Parser where
  pattern : List PatternParam
  arguments : List (String × RegSpec) := []
  parameters : List (String × ParamSpec) := []
  flags : List (String × RegSpec) := []

/-- The body of the constructor's `pattern.map(...)` with the mutable
`optionalParamFound` closure variable made an explicit accumulator: each
token has its first '<' and first '>' removed; a token containing '?' is
optional (marker removed); a non-optional token after an optional one
throws. -/
def compileParams : List String → Bool → Except Fatal (List PatternParam)
  | [], _ => .ok []
  | tok :: toks, optionalParamFound =>
    let parsedParam := jsReplaceEmpty '>' (jsReplaceEmpty '<' tok)
    if parsedParam.data.contains '?' then
      (compileParams toks true).map
        (fun rest => ⟨jsReplaceEmpty '?' parsedParam, false⟩ :: rest)
    else if optionalParamFound then
      .error ⟨"required parameter cannot be after optional parameter"⟩
    else
      (compileParams toks optionalParamFound).map
        (fun rest => ⟨parsedParam, true⟩ :: rest)

/-- The Parser constructor: split the pattern on ' '; the tokens after the
command name compile to the parameter descriptor list; the three
registries start empty. -/
def Parser.ofPattern (p : String) : Except Fatal Parser :=
  let pattern := jsSplit ' ' p
  if pattern.length > 1 then
    (compileParams (pattern.drop 1) false).map
      (fun descriptors => { pattern := descriptors })
  else
    .ok { pattern := [] }

/-- One identifier check of `_assertNotAlreadyRegistered`: the 'argument'
registry is consulted before the 'flag' registry. -/
def checkId (P : Parser) (id : String) : Except Fatal Unit :=
  if hasKey P.arguments id then
    .error ⟨s!"argument with identifier {id} already exists"⟩
  else if hasKey P.flags id then
    .error ⟨s!"flag with identifier {id} already exists"⟩
  else
    .ok ()

/-- Model of `[longHand, shortHand].filter(Boolean)`: drop an absent short-hand and
empty strings (the falsy strings). -/
def idsOf (longHand : String) (shortHand : Option String) : List String :=
  (longHand :: shortHand.toList).filter (fun s => s ≠ "")

/-- Model of `Parser._assertNotAlreadyRegistered(longHand, shortHand)`. -/
def assertNotAlreadyRegistered (P : Parser) (longHand : String)
    (shortHand : Option String) : Except Fatal Unit :=
  (idsOf longHand shortHand).foldlM (fun _ id => checkId P id) ()

/-- Model of `Parser.argument(name, opts)`: split the name on '|', assert the
identifiers unregistered, store `{shortHand, type: 'string', ...opts}`
under the long-hand key. -/
def Parser.argument (P : Parser) (name : String) (opts : RegOpts := {}) :
    Except Fatal Parser :=
  if name = "" then
    .error ⟨"no name found in argument registration"⟩
  else
    let parts := jsSplit '|' name
    let longHand := parts.headD ""
    let shortHand := parts[1]?
    let spec : RegSpec :=
      { shortHand := shortHand
        type := opts.type.getD "string"
        validate := opts.validate
        description := opts.description }
    (assertNotAlreadyRegistered P longHand shortHand).map (fun _ =>
      { P with arguments := objSet P.arguments longHand spec })

/-- Model of `Parser.flag(name, opts)`: identical to argument registration except
that it stores into the flag registry. -/
def Parser.flag (P : Parser) (name : String) (opts : RegOpts := {}) :
    Except Fatal Parser :=
  if name = "" then
    .error ⟨"no name found in flag registration"⟩
  else
    let parts := jsSplit '|' name
    let longHand := parts.headD ""
    let shortHand := parts[1]?
    let spec : RegSpec :=
      { shortHand := shortHand
        type := opts.type.getD "string"
        validate := opts.validate
        description := opts.description }
    (assertNotAlreadyRegistered P longHand shortHand).map (fun _ =>
      { P with flags := objSet P.flags longHand spec })

/-- Model of `Parser.parameter(name, opts)`: the name must occur in the compiled
pattern and must not already be registered; stores `{type: 'string', ...opts}`. -/
def Parser.parameter (P : Parser) (name : String) (opts : RegOpts := {}) :
    Except Fatal Parser :=
  if name = "" then
    .error ⟨"no name found in parameter registration"⟩
  else if P.pattern.any (fun param => param.name = name) then
    if !(hasKey P.parameters name) then
      let spec : ParamSpec :=
        { type := opts.type.getD "string"
          validate := opts.validate
          description := opts.description }
      .ok { P with parameters := objSet P.parameters name spec }
    else
      .error ⟨s!"{name} is already a registered parameter"⟩
  else
    .error ⟨s!"{name} was not specified in pattern"⟩

/-- The string a JS template literal renders for a possibly-undefined
short-hand: `undefined` interpolates as the text "undefined". -/
def shDisplay : Option String → String
  | some s => s
  | none => "undefined"

/-- The search-token list of one registered argument,
`[`--long`, `-short`].filter(Boolean)`: both template results are non-empty
strings, but the filter is kept faithfully. -/
def argSearchToks (longHand : String) (spec : RegSpec) : List String :=
  ["--" ++ longHand, "-" ++ shDisplay spec.shortHand].filter (fun t => t ≠ "")

/-- Model of `arg.split('-').join('')`: the long-hand key with its hyphens removed,
used as the storage key in the parsed-arguments object. -/
def stripHyphens (s : String) : String :=
  String.join (jsSplit '-' s)

/-- One iteration of the inner `forEach` of `parseArguments` for one search
token: on a hit, the following token is the value (missing value throws),
it is coerced, optionally validated, stored under the hyphen-stripped
long-hand key, and both tokens are spliced out of the working list. -/
def argStep (longHand : String) (spec : RegSpec)
    (st : List (String × JSVal) × List String) (tok : String) :
    Except Fatal (List (String × JSVal) × List String) :=
  let (parsed, args) := st
  match jsIndexOf args tok with
  | none => .ok (parsed, args)
  | some index =>
    match args[index + 1]? with
    | none => .error ⟨s!"no value passed to {tok}"⟩
    | some raw => do
      let castedValue ← castToType raw (some spec.type)
      match spec.validate with
      | some validate =>
        if validate castedValue then
          .ok (objSet parsed (stripHyphens longHand) castedValue,
               jsSplice args index 2)
        else
          .error ⟨s!"{longHand} failed validation"⟩
      | none =>
        .ok (objSet parsed (stripHyphens longHand) castedValue,
             jsSplice args index 2)

/-- The body of the outer `for (let arg in this.arguments)` loop of
`parseArguments` for one registered argument. -/
def argReg (st : List (String × JSVal) × List String)
    (reg : String × RegSpec) :
    Except Fatal (List (String × JSVal) × List String) :=
  (argSearchToks reg.1 reg.2).foldlM (argStep reg.1 reg.2) st

/-- Model of `Parser.parseArguments(args)`: returns the parsed-arguments object
together with the working token list after the destructive splices
(the source mutates `args` in place). -/
def Parser.parseArguments (P : Parser) (args : List String) :
    Except Fatal (List (String × JSVal) × List String) :=
  P.arguments.foldlM argReg ([], args)

/-- One iteration of the inner `forEach` of `parseFlags` for one search
token: a hit sets the flag true and splices the matching token out;
a miss sets the flag false.  The source's `delete parsed[name]` lines
delete the keys "--long" / "-short", which never occur in the parsed
object as long as no registered long-hand itself begins with '-'
(true of every registration in the repository), so they are no-ops
and are not modelled. -/
def flagStep (longHand : String)
    (st : List (String × Bool) × List String) (tok : String) :
    List (String × Bool) × List String :=
  let (parsed, args) := st
  match jsIndexOf args tok with
  | some index => (objSet parsed longHand true, jsSplice args index 1)
  | none => (objSet parsed longHand false, args)

/-- Model of `Parser.parseFlags(args)`: for each registered flag the tokens
`--long` then `-short` are looked up in turn; each lookup overwrites the
flag's entry, so the second (short-hand) lookup decides the final value.
Returns the flags object and the working token list after splices. -/
def Parser.parseFlags (P : Parser) (args : List String) :
    List (String × Bool) × List String :=
  P.flags.foldl
    (fun st reg =>
      ["--" ++ reg.1, "-" ++ shDisplay reg.2.shortHand].foldl
        (flagStep reg.1) st)
    ([], args)

/-- The `for (let i = 0; i < this.pattern.length; i++)` loop of
`parseParameters`, walking the descriptor list and the token list in
lock-step (`args[i] !== undefined` is "the token list still has an
element here" — the working list holds only strings).  The source guards
the store with `castedValue !== null`, which is always true because
`castToType` never returns null on success; the guard is therefore not
modelled. -/
def paramsGo (params : List (String × ParamSpec))
    (parsed : List (String × JSVal)) :
    List PatternParam → List String → Except Fatal (List (String × JSVal))
  | [], _ => .ok parsed
  | d :: ds, [] =>
    if d.required then .error ⟨s!"{d.name} is required"⟩
    else paramsGo params parsed ds []
  | d :: ds, a :: as =>
    match objGet params d.name with
    | none => .error ⟨s!"{d.name} is not a registered parameters"⟩
    | some spec => do
      let castedValue ← castToType a (some spec.type)
      paramsGo params (objSet parsed d.name castedValue) ds as

/-- Model of `Parser.parseParameters(args)`: too many remaining tokens throw,
otherwise the tokens are bound positionally against the pattern. -/
def Parser.parseParameters (P : Parser) (args : List String) :
    Except Fatal (List (String × JSVal)) :=
  if args.length > P.pattern.length then
    .error ⟨s!"invalid command structure - expected {P.pattern.length} parameters, but found {args.length}"⟩
  else
    paramsGo P.parameters [] P.pattern args

/-- The parsed result object `ctx.arguments` with its three mappings. -/
structure ParsedArgs where
  arguments : List (String × JSVal)
  flags : List (String × Bool)
  parameters : List (String × JSVal)
deriving DecidableEq, Repr

/-- The execution context: `args` is the raw token list (`none` models a
context with no `args` property), `parsed` is the `ctx.arguments` result
once `parse` has run, and `extra` stands for the additional domain data
lifecycle hooks read and write. -/
structure Context where
  args : Option (List String) := none
  parsed : Option ParsedArgs := none
  extra : List (String × JSVal) := []
deriving DecidableEq, Repr

/-- Model of `Parser.parse(ctx)`: requires an `args` property; runs
`parseArguments`, then `parseFlags`, then `parseParameters`, each over the
token list as mutated by the previous stage, and stores the three results
on the context.  The context keeps the mutated token list (the source
splices `ctx.args` in place). -/
def Parser.parse (P : Parser) (ctx : Context) : Except Fatal Context :=
  match ctx.args with
  | none => .error ⟨"no args found in context - Parser:parse"⟩
  | some args0 => do
    let (argsParsed, args1) ← P.parseArguments args0
    let (flagsParsed, args2) := P.parseFlags args1
    let paramsParsed ← P.parseParameters args2
    .ok { ctx with
          args := some args2
          parsed := some ⟨argsParsed, flagsParsed, paramsParsed⟩ }

/-- A Command instance: its parser plus the three lifecycle hooks.  The
source installs hooks by overwriting prototype methods after construction;
following the data model, they are fields here, with the identity defaults
of the base class (`main` additionally logs a warning, which is not
modelled).  A hook either resolves with a context or rejects; a synchronous
throw inside a hook is identified with rejection. -/
structure Command where
  parser : Parser
  before : Context → Except Fatal Context := fun ctx => .ok ctx
  main : Context → Except Fatal Context := fun ctx => .ok ctx
  after : Context → Except Fatal Context := fun ctx => .ok ctx

/-- Outcome of `Command.execute`: a synchronous parse error is logged and
the process exits with status 1; otherwise the hook chain resolves with
the final context or rejects with the propagated error. -/
inductive ExecResult where
  | exited : Nat → ExecResult
  | rejected : Fatal → ExecResult
  | resolved : Context → ExecResult

/-- Model of `Command.execute(ctx)`: parse first; on a parse error log and
`process.exit(1)`; on success run `before`, feed its resolved context to
`main`, feed that to `after`, and deliver `after`'s resolved context. -/
def Command.execute (c : Command) (ctx : Context) : ExecResult :=
  match c.parser.parse ctx with
  | .error _ => .exited 1
  | .ok parsedCtx =>
    match (c.before parsedCtx).bind c.main |>.bind c.after with
    | .ok result => .resolved result
    | .error e => .rejected e


/-- Returns `true` iff an `Except` computation succeeded. -/
def isOk : Except Fatal α → Bool
  | .ok _ => true
  | .error _ => false

/-- Whether a pattern token carries the optional marker, checked — as the
constructor does — after removing the first '<' and first '>'. -/
def isOptTok (t : String) : Bool :=
  (jsReplaceEmpty '>' (jsReplaceEmpty '<' t)).data.contains '?'

/-- The descriptor one pattern token compiles to (when compilation does not
fail): brackets stripped, optional iff a '?' is present (marker stripped). -/
def mkPatternParam (t : String) : PatternParam :=
  let p := jsReplaceEmpty '>' (jsReplaceEmpty '<' t)
  if p.data.contains '?' then ⟨jsReplaceEmpty '?' p, false⟩ else ⟨p, true⟩

/-- Fixture for the end-to-end scenario: pattern "<greet> <name> <times?>",
parameter name:string, parameter times:int, flag "loud|l", then a parse of
the tokens ["Ada", "--loud"]. -/
def greetScenario : Except Fatal Context := do
  let P0 ← Parser.ofPattern "<greet> <name> <times?>"
  let P1 ← P0.parameter "name" {}
  let P2 ← P1.parameter "times" { type := some "int" }
  let P3 ← P2.flag "loud|l" {}
  P3.parse { args := some ["Ada", "--loud"] }

/-- Fixture: register argument "team|t" and then flag "trace|t" on a fresh
parser (pattern "<x>"). -/
def teamTraceChain : Except Fatal Parser := do
  let P0 ← Parser.ofPattern "<x>"
  let P1 ← P0.argument "team|t" {}
  P1.flag "trace|t" {}

/-- The parser state right after registering argument "team|t" on a fresh
parser with pattern "<x>" (the value `Parser.ofPattern "<x>"` followed by
`argument "team|t"` computes to). -/
def teamParser : Parser :=
  { pattern := [⟨"x", true⟩]
    arguments := [("team", { shortHand := some "t" })] }

/-- Fixture for positional binding: pattern "<cmd> <a> <b?>" with
parameters a:string and b:int. -/
def abParserE : Except Fatal Parser := do
  let P0 ← Parser.ofPattern "<cmd> <a> <b?>"
  let P1 ← P0.parameter "a" {}
  P1.parameter "b" { type := some "int" }

/-- Fixture for the named-argument round trip: a parser with the single
registered argument "team|t". -/
def teamArgParserE : Except Fatal Parser := do
  let P0 ← Parser.ofPattern "<cmd>"
  P0.argument "team|t" {}

/-- The running required-before-optional check of the pattern compiler, with
the constructor's mutable closure flag as an explicit accumulator: true iff
compilation of these tokens succeeds given that an optional parameter has
(or has not) already been seen. -/
def patternOrderOk (optionalParamFound : Bool) : List String → Bool
  | [] => true
  | t :: ts =>
    if isOptTok t then patternOrderOk true ts
    else !optionalParamFound && patternOrderOk false ts

/-- Fixture: a parser for pattern "<cmd> <a>" with parameter a:string
registered (the value the registration chain computes to). -/
def aParser : Parser :=
  { pattern := [⟨"a", true⟩]
    parameters := [("a", { type := "string" })] }

/-- Fixture context holding the single token "x". -/
def aCtx : Context := { args := some ["x"] }

/-- The context `aParser.parse aCtx` computes to. -/
def aCtx2 : Context :=
  { args := some ["x"], parsed := some ⟨[], [], [("a", JSVal.str "x")]⟩ }

-- THEOREMS

/-- C1 (code bug evaluation): for the registered flag "loud|l", parsing
["Ada", "--loud"] consumes the "--loud" token but reports the flag as
`false`: after the long-hand token matches and sets the flag true, the
subsequent short-hand lookup misses and overwrites the value with false.
The claim (and the spec's end-to-end scenario) expect `flags = {loud: true}`. -/
theorem c1_longhand_flag_eval :
    greetScenario =
      .ok { args := some ["Ada"]
            parsed := some { arguments := []
                             flags := [("loud", false)]
                             parameters := [("name", JSVal.str "Ada")] } } := rfl

/-- C2 (counterexample): registering argument "team|t" and then flag
"trace|t" does not fail — the duplicate check compares the new identifiers
only against the long-hand keys of the existing registries, and the
recorded short-hand "t" is not a key. -/
theorem c2_shorthand_collision_not_detected :
    isOk teamTraceChain = true := rfl

/-- C4: for pattern "<cmd> <a> <b?>" with registered parameters a:string
and b:int, parsing ["x"] binds only a; parsing ["x","5"] binds a and the
coerced integer 5 to b; parsing ["x","y","z"] fails with the
too-many-parameters error naming the expected and found counts. -/
theorem c4_positional_binding :
    abParserE.bind (fun P => P.parse { args := some ["x"] }) =
      .ok { args := some ["x"]
            parsed := some { arguments := []
                             flags := []
                             parameters := [("a", JSVal.str "x")] } } ∧
    abParserE.bind (fun P => P.parse { args := some ["x", "5"] }) =
      .ok { args := some ["x", "5"]
            parsed := some { arguments := []
                             flags := []
                             parameters := [("a", JSVal.str "x"), ("b", JSVal.int 5)] } } ∧
    abParserE.bind (fun P => P.parse { args := some ["x", "y", "z"] }) =
      .error ⟨"invalid command structure - expected 2 parameters, but found 3"⟩ :=
  ⟨rfl, rfl, rfl⟩

/-- C5: with argument "team|t" registered, parsing the tokens
["--team", "acme", "x"] stores "acme" under the key team and removes both
the "--team" token and its value token, leaving exactly ["x"] for
positional parameter binding. -/
theorem c5_argument_roundtrip :
    teamArgParserE.bind (fun P => P.parseArguments ["--team", "acme", "x"]) =
      .ok ([("team", JSVal.str "acme")], ["x"]) := rfl

-- C7 amended
/-- C7 amended: for type "int" the call fails exactly when JS parseInt with
its default radix (base 10, with a leading 0x/0X switching to base 16)
yields NaN, and for type "float" exactly when parseFloat yields NaN; in
particular every non-numeric string fails with the invalid-type error. -/
theorem c7_amended (v : String) :
    (castToType v (some "int") = .error ⟨s!"{v} is not of type int"⟩ ↔
      jsParseInt v = none) ∧
    (castToType v (some "float") = .error ⟨s!"{v} is not of type float"⟩ ↔
      jsParseFloatDefined v = false) := by
  constructor
  · have hint : castToType v (some "int") =
        (match jsParseInt v with
         | none => .error ⟨s!"{v} is not of type int"⟩
         | some n => .ok (.int n)) := rfl
    rw [hint]
    cases h : jsParseInt v <;> simp
  · have hfl : castToType v (some "float") =
        (if jsParseFloatDefined v then .ok (.float v)
         else .error ⟨s!"{v} is not of type float"⟩) := rfl
    rw [hfl]
    cases h : jsParseFloatDefined v <;> simp [h]

/-- C7 counterexample: on the input "0x" the int coercion fails, yet a
base-10 parse of "0x" (the spec's wording) yields 0, not NaN — so "fails
exactly when the base-10 parse yields not-a-number" does not hold. -/
theorem c7_counterexample :
    castToType "0x" (some "int") = .error ⟨"0x is not of type int"⟩ ∧
    specParseIntBase10 "0x" = some 0 := ⟨rfl, rfl⟩

-- C3
/-- C3: execute runs the parser first; a parse error exits the process with
status 1 no matter which hooks are installed (none of before/main/after can
influence or observe the outcome); on parse success, before receives the
parsed context, main receives before's resolved value, after receives
main's resolved value, and after's resolved context is the command's
result. -/
theorem c3_execute_lifecycle (c : Command) (ctx : Context) :
    (∀ e, c.parser.parse ctx = .error e →
      ∀ b m a, Command.execute { parser := c.parser, before := b, main := m, after := a } ctx = .exited 1) ∧
    (∀ pctx c1 c2 c3, c.parser.parse ctx = .ok pctx →
      c.before pctx = .ok c1 → c.main c1 = .ok c2 → c.after c2 = .ok c3 →
      c.execute ctx = .resolved c3) := by
  constructor
  · intro e he b m a
    simp [Command.execute, he]
  · intro pctx c1 c2 c3 hp hb hm ha
    simp [Command.execute, hp, hb, hm, ha, Except.bind]

theorem exBind_ok {ε α β} (a : α) (f : α → Except ε β) :
    (Except.ok a >>= f) = f a := rfl

theorem exBind_error {ε α β} (e : ε) (f : α → Except ε β) :
    (Except.error e >>= f) = Except.error e := rfl

theorem exPure {ε α} (a : α) : (pure a : Except ε α) = Except.ok a := rfl

theorem isOk_map {α β} (x : Except Fatal α) (f : α → β) :
    isOk (x.map f) = isOk x := by
  cases x <;> rfl

theorem isOk_assert_iff (P : Parser) (ids : List String) :
    isOk (ids.foldlM (fun _ id => checkId P id) ()) = true ↔
      ∀ id ∈ ids, hasKey P.arguments id = false ∧ hasKey P.flags id = false := by
  induction ids with
  | nil => simp [isOk, exPure]
  | cons id rest ih =>
    rw [List.foldlM_cons]
    by_cases ha : hasKey P.arguments id = true
    · have h1 : checkId P id =
          Except.error ⟨s!"argument with identifier {id} already exists"⟩ := by
        simp [checkId, ha]
      rw [h1, exBind_error]
      simp [isOk, List.forall_mem_cons, ha]
    · by_cases hf : hasKey P.flags id = true
      · have h1 : checkId P id =
            Except.error ⟨s!"flag with identifier {id} already exists"⟩ := by
          simp [checkId, ha, hf]
        rw [h1, exBind_error]
        simp only [Bool.not_eq_true] at ha
        simp [isOk, List.forall_mem_cons, ha, hf]
      · simp only [Bool.not_eq_true] at ha hf
        have h1 : checkId P id = Except.ok () := by simp [checkId, ha, hf]
        rw [h1, exBind_ok, ih]
        simp [List.forall_mem_cons, ha, hf]

/-- C2 amended: registering an argument or flag fails with the
duplicate-identifier error exactly when the new long-hand or short-hand
equals the long-hand key of a previously registered argument or flag;
recorded short-hands are not part of the check, so "team|t" followed by
"trace|t" succeeds.  On failure the parser state is returned unchanged
(no partial registration is recorded). -/
theorem c2_amended (P : Parser) (name : String) (opts : RegOpts)
    (hname : name ≠ "") :
    (isOk (P.flag name opts) = true ↔
      ∀ id ∈ idsOf ((jsSplit '|' name).headD "") (jsSplit '|' name)[1]?,
        hasKey P.arguments id = false ∧ hasKey P.flags id = false) ∧
    (isOk (P.argument name opts) = true ↔
      ∀ id ∈ idsOf ((jsSplit '|' name).headD "") (jsSplit '|' name)[1]?,
        hasKey P.arguments id = false ∧ hasKey P.flags id = false) := by
  constructor
  · have h1 : isOk (P.flag name opts) =
        isOk (assertNotAlreadyRegistered P ((jsSplit '|' name).headD "")
          (jsSplit '|' name)[1]?) := by
      simp only [Parser.flag, if_neg hname]
      exact isOk_map _ _
    rw [h1]
    exact isOk_assert_iff P _
  · have h1 : isOk (P.argument name opts) =
        isOk (assertNotAlreadyRegistered P ((jsSplit '|' name).headD "")
          (jsSplit '|' name)[1]?) := by
      simp only [Parser.argument, if_neg hname]
      exact isOk_map _ _
    rw [h1]
    exact isOk_assert_iff P _

/-- Witness for the amended duplicate check at the concrete parser holding
argument "team|t": registering flag "trace|t" succeeds. -/
theorem c2_witness :
    isOk (teamParser.flag "trace|t" {}) = true := by
  refine (c2_amended teamParser "trace|t" {} (by decide)).1.mpr ?_
  decide


theorem isOptTok_iff (t : String) :
    isOptTok t = true ↔ '?' ∈ (jsReplaceEmpty '>' (jsReplaceEmpty '<' t)).data := by
  simp [isOptTok]

theorem mkPatternParam_opt (t : String)
    (h : '?' ∈ (jsReplaceEmpty '>' (jsReplaceEmpty '<' t)).data) :
    mkPatternParam t =
      ⟨jsReplaceEmpty '?' (jsReplaceEmpty '>' (jsReplaceEmpty '<' t)), false⟩ := by
  simp [mkPatternParam, h]

theorem mkPatternParam_req (t : String)
    (h : '?' ∉ (jsReplaceEmpty '>' (jsReplaceEmpty '<' t)).data) :
    mkPatternParam t = ⟨jsReplaceEmpty '>' (jsReplaceEmpty '<' t), true⟩ := by
  simp [mkPatternParam, h]

theorem compileParams_ok (toks : List String) (f : Bool)
    (h : patternOrderOk f toks = true) :
    compileParams toks f = .ok (toks.map mkPatternParam) := by
  induction toks generalizing f with
  | nil => rfl
  | cons t ts ih =>
    by_cases hq : '?' ∈ (jsReplaceEmpty '>' (jsReplaceEmpty '<' t)).data
    · have hopt : isOptTok t = true := (isOptTok_iff t).mpr hq
      rw [patternOrderOk, if_pos hopt] at h
      simp [compileParams, hq, ih true h, Except.map, mkPatternParam_opt t hq]
    · have hopt : isOptTok t = false := by
        simp [isOptTok, hq]
      rw [patternOrderOk, if_neg (by simp [hopt])] at h
      simp only [Bool.and_eq_true, Bool.not_eq_true'] at h
      obtain ⟨hf, hrest⟩ := h
      subst hf
      simp [compileParams, hq, ih false hrest, Except.map, mkPatternParam_req t hq]

theorem compileParams_err (toks : List String) (f : Bool)
    (h : patternOrderOk f toks = false) :
    compileParams toks f =
      .error ⟨"required parameter cannot be after optional parameter"⟩ := by
  induction toks generalizing f with
  | nil => simp [patternOrderOk] at h
  | cons t ts ih =>
    by_cases hq : '?' ∈ (jsReplaceEmpty '>' (jsReplaceEmpty '<' t)).data
    · have hopt : isOptTok t = true := (isOptTok_iff t).mpr hq
      rw [patternOrderOk, if_pos hopt] at h
      simp [compileParams, hq, ih true h, Except.map]
    · have hopt : isOptTok t = false := by
        simp [isOptTok, hq]
      rw [patternOrderOk, if_neg (by simp [hopt])] at h
      simp only [Bool.and_eq_false_iff, Bool.not_eq_false'] at h
      cases h with
      | inl hf =>
        subst hf
        simp [compileParams, hq]
      | inr hrest =>
        cases f with
        | true => simp [compileParams, hq]
        | false => simp [compileParams, hq, ih false hrest, Except.map]

theorem patternOrderOk_true_eq (ts : List String) :
    patternOrderOk true ts = ts.all (fun t => isOptTok t) := by
  induction ts with
  | nil => rfl
  | cons t ts ih =>
    rw [patternOrderOk, List.all_cons]
    by_cases ht : isOptTok t = true
    · rw [if_pos (by simp [ht]), ht, Bool.true_and, ih]
    · have htf : isOptTok t = false := by simpa using ht
      rw [if_neg (by simp [htf]), htf, Bool.false_and]
      simp

theorem patternOrderOk_false_iff (ts : List String) :
    patternOrderOk false ts = true ↔
      List.Pairwise (fun a b => isOptTok a = true → isOptTok b = true) ts := by
  induction ts with
  | nil => simp [patternOrderOk]
  | cons t ts ih =>
    rw [patternOrderOk, List.pairwise_cons]
    by_cases ht : isOptTok t = true
    · rw [if_pos (by simp [ht]), patternOrderOk_true_eq, List.all_eq_true]
      constructor
      · intro hall
        refine ⟨fun b hb _ => hall b hb, ?_⟩
        exact List.pairwise_of_forall_mem_list (fun a _ b hb _ => hall b hb)
      · intro h
        exact fun b hb => h.1 b hb ht
    · have htf : isOptTok t = false := by simpa using ht
      rw [if_neg (by simp [htf])]
      simp only [Bool.not_false, Bool.true_and, ih]
      constructor
      · intro hp
        exact ⟨fun b _ hcontra => absurd hcontra (by simp [htf]), hp⟩
      · intro h
        exact h.2

/-- C8: if a pattern token without the optional marker appears after a
token with the marker, compilation fails with the pattern-order error;
conversely, if every token after an optional one is also optional, the
constructor succeeds and yields the descriptors in pattern order. -/
theorem c8_pattern_order (p : String) :
    ((∃ i j, ∃ hi : i < ((jsSplit ' ' p).drop 1).length,
        ∃ hj : j < ((jsSplit ' ' p).drop 1).length,
        i < j ∧ isOptTok (((jsSplit ' ' p).drop 1).get ⟨i, hi⟩) = true ∧
          isOptTok (((jsSplit ' ' p).drop 1).get ⟨j, hj⟩) = false) →
      Parser.ofPattern p =
        .error ⟨"required parameter cannot be after optional parameter"⟩) ∧
    (List.Pairwise (fun a b => isOptTok a = true → isOptTok b = true)
        ((jsSplit ' ' p).drop 1) →
      Parser.ofPattern p =
        .ok { pattern := ((jsSplit ' ' p).drop 1).map mkPatternParam }) := by
  constructor
  · rintro ⟨i, j, hi, hj, hij, hoi, hoj⟩
    have hnp : ¬ List.Pairwise (fun a b => isOptTok a = true → isOptTok b = true)
        ((jsSplit ' ' p).drop 1) := by
      intro hp
      have hr := List.pairwise_iff_getElem.mp hp i j hi hj hij
      simp only [List.get_eq_getElem] at hoi hoj
      rw [hr hoi] at hoj
      exact absurd hoj (by simp)
    by_cases hl : 1 < (jsSplit ' ' p).length
    · have hfalse : patternOrderOk false ((jsSplit ' ' p).drop 1) = false := by
        rw [← Bool.not_eq_true]
        intro hc
        exact hnp ((patternOrderOk_false_iff _).mp hc)
      simp only [Parser.ofPattern, gt_iff_lt, if_pos hl]
      rw [compileParams_err _ false hfalse]
      rfl
    · have hdrop : (jsSplit ' ' p).drop 1 = [] :=
        List.drop_eq_nil_of_le (by omega)
      rw [hdrop] at hi
      exact absurd hi (by simp)
  · intro hp
    by_cases hl : 1 < (jsSplit ' ' p).length
    · have hok : patternOrderOk false ((jsSplit ' ' p).drop 1) = true :=
        (patternOrderOk_false_iff _).mpr hp
      simp only [Parser.ofPattern, gt_iff_lt, if_pos hl]
      rw [compileParams_ok _ false hok]
      rfl
    · have hdrop : (jsSplit ' ' p).drop 1 = [] :=
        List.drop_eq_nil_of_le (by omega)
      simp only [Parser.ofPattern, gt_iff_lt, if_neg hl, hdrop, List.map_nil]

/-- Witness for the pattern-order theorem: "<cmd> <a?> <b>" fails and
"<cmd> <a> <b?>" compiles to its two descriptors in order. -/
theorem c8_witness :
    Parser.ofPattern "<cmd> <a?> <b>" =
      .error ⟨"required parameter cannot be after optional parameter"⟩ ∧
    Parser.ofPattern "<cmd> <a> <b?>" =
      .ok { pattern := [⟨"a", true⟩, ⟨"b", false⟩] } := by
  constructor
  · exact (c8_pattern_order "<cmd> <a?> <b>").1
      ⟨0, 1, by decide, by decide, by decide, by decide, by decide⟩
  · exact (c8_pattern_order "<cmd> <a> <b?>").2
      (by simp [List.pairwise_cons]; decide)

theorem jsIndexOf_eq_none (l : List String) (t : String) (h : t ∉ l) :
    jsIndexOf l t = none := by
  induction l with
  | nil => rfl
  | cons a as ih =>
    simp only [List.mem_cons, not_or] at h
    rw [jsIndexOf, if_neg (fun hc => h.1 hc.symm), ih h.2]
    rfl

theorem jsIndexOf_append (pre rest : List String) (t : String) (h : t ∉ pre) :
    jsIndexOf (pre ++ t :: rest) t = some pre.length := by
  induction pre with
  | nil => simp [jsIndexOf]
  | cons a pre ih =>
    simp only [List.mem_cons, not_or] at h
    rw [List.cons_append, jsIndexOf, if_neg (fun hc => h.1 hc.symm), ih h.2]
    rfl

theorem jsSplice_at (pre post : List String) (u v : String) :
    jsSplice (pre ++ u :: v :: post) pre.length 2 = pre ++ post := by
  rw [jsSplice]
  congr 1
  · exact List.take_left pre _
  · have hassoc : pre ++ u :: v :: post = (pre ++ [u, v]) ++ post := by simp
    rw [hassoc, List.drop_left' (by simp)]

theorem append_ne_empty_left (s t : String) (hs : s ≠ "") : s ++ t ≠ "" := by
  intro h
  apply hs
  apply String.ext
  have hd := congrArg String.data h
  rw [String.data_append] at hd
  exact List.append_eq_nil.mp hd |>.1

/-- C9: for an argument registered without a short-hand, the template
literal renders the undefined short-hand as the literal token "-undefined";
argument parsing therefore searches for "-undefined", and when it is
present consumes the following token as the argument's value and removes
both tokens from the working list. -/
theorem c9_undefined_shorthand_search
    (pat : List PatternParam) (ps : List (String × ParamSpec))
    (fs : List (String × RegSpec)) (longHand v : String) (d : Option String)
    (pre post : List String)
    (hlong : ("--" ++ longHand) ∉ pre ++ "-undefined" :: v :: post)
    (hpre : "-undefined" ∉ pre) :
    Parser.parseArguments
      { pattern := pat
        arguments := [(longHand,
          { shortHand := none, type := "string", validate := none, description := d })]
        parameters := ps
        flags := fs }
      (pre ++ "-undefined" :: v :: post) =
    .ok ([(stripHyphens longHand, JSVal.str v)], pre ++ post) := by
  have hsearch : argSearchToks longHand
      { shortHand := none, type := "string", validate := none, description := d } =
      ["--" ++ longHand, "-undefined"] := by
    simp [argSearchToks, shDisplay, List.filter_cons,
      append_ne_empty_left "--" longHand (by decide)]
  have hstep1 : argStep longHand
      { shortHand := none, type := "string", validate := none, description := d }
      ([], pre ++ "-undefined" :: v :: post) ("--" ++ longHand) =
      .ok ([], pre ++ "-undefined" :: v :: post) := by
    simp [argStep, jsIndexOf_eq_none _ _ hlong]
  have hget : (pre ++ "-undefined" :: v :: post)[pre.length + 1]? = some v := by
    rw [List.getElem?_append_right (by omega)]
    simp
  have hstep2 : argStep longHand
      { shortHand := none, type := "string", validate := none, description := d }
      ([], pre ++ "-undefined" :: v :: post) "-undefined" =
      .ok ([(stripHyphens longHand, JSVal.str v)], pre ++ post) := by
    rw [argStep]
    rw [jsIndexOf_append pre (v :: post) "-undefined" hpre]
    simp only [hget]
    rw [show castToType v (some "string") = .ok (.str v) from rfl]
    simp only [exBind_ok]
    rw [jsSplice_at pre post "-undefined" v]
    rfl
  show List.foldlM argReg
      ([], pre ++ "-undefined" :: v :: post)
      [(longHand,
        { shortHand := none, type := "string", validate := none, description := d })] = _
  simp only [List.foldlM_cons, List.foldlM_nil, argReg, hsearch, hstep1, hstep2,
    exBind_ok]
  rfl

/-- Witness for the "-undefined" search at a concrete registration and
token list. -/
theorem c9_witness :
    Parser.parseArguments
      { pattern := []
        arguments := [("team",
          { shortHand := none, type := "string", validate := none, description := none })]
        parameters := []
        flags := [] }
      ["-undefined", "acme", "x"] =
    .ok ([("team", JSVal.str "acme")], ["x"]) :=
  c9_undefined_shorthand_search [] [] [] "team" "acme" none [] ["x"]
    (by decide) (by decide)

theorem jsSplice_sublist (l : List String) (i k : Nat) :
    (jsSplice l i k).Sublist l := by
  rw [jsSplice]
  have h1 : List.drop (i + k) l = List.drop k (List.drop i l) := by
    rw [List.drop_drop, Nat.add_comm]
  have h2 : (List.take i l ++ List.drop (i + k) l).Sublist
      (List.take i l ++ List.drop i l) := by
    rw [h1]
    exact List.Sublist.append_left (List.drop_sublist k (List.drop i l)) _
  rw [List.take_append_drop] at h2
  exact h2

theorem foldlM_snd_sublist {α β : Type}
    (f : (β × List String) → α → Except Fatal (β × List String))
    (hf : ∀ st a st2, f st a = .ok st2 → st2.2.Sublist st.2) :
    ∀ (l : List α) (st st2 : β × List String),
      l.foldlM f st = .ok st2 → st2.2.Sublist st.2 := by
  intro l
  induction l with
  | nil =>
    intro st st2 h
    have : st = st2 := by simpa [exPure] using h
    rw [this]
  | cons a l ih =>
    intro st st2 h
    rw [List.foldlM_cons] at h
    cases hf0 : f st a with
    | error e => rw [hf0, exBind_error] at h; exact absurd h (by simp)
    | ok mid =>
      rw [hf0, exBind_ok] at h
      exact (ih mid st2 h).trans (hf st a mid hf0)

theorem foldl_snd_sublist {α β : Type}
    (f : (β × List String) → α → (β × List String))
    (hf : ∀ st a, (f st a).2.Sublist st.2) :
    ∀ (l : List α) (st : β × List String), (l.foldl f st).2.Sublist st.2 := by
  intro l
  induction l with
  | nil => intro st; exact List.Sublist.refl _
  | cons a l ih =>
    intro st
    rw [List.foldl_cons]
    exact (ih (f st a)).trans (hf st a)

theorem argStep_sublist (longHand : String) (spec : RegSpec)
    (st st2 : List (String × JSVal) × List String) (tok : String)
    (h : argStep longHand spec st tok = .ok st2) : st2.2.Sublist st.2 := by
  obtain ⟨p, a⟩ := st
  rw [argStep] at h
  split at h
  · cases h
    exact List.Sublist.refl _
  · split at h
    · exact absurd h (by simp)
    · rename_i raw hraw
      cases hc : castToType raw (some spec.type) with
      | error e => rw [hc, exBind_error] at h; exact absurd h (by simp)
      | ok val =>
        rw [hc, exBind_ok] at h
        split at h
        · split at h
          · cases h
            exact jsSplice_sublist a _ 2
          · exact absurd h (by simp)
        · cases h
          exact jsSplice_sublist a _ 2

theorem parseArguments_sublist (P : Parser) (args0 : List String)
    (parsed : List (String × JSVal)) (args2 : List String)
    (h : P.parseArguments args0 = .ok (parsed, args2)) : args2.Sublist args0 := by
  exact foldlM_snd_sublist argReg
    (fun st reg st2 hr =>
      foldlM_snd_sublist (argStep reg.1 reg.2)
        (fun s t s2 hs => argStep_sublist reg.1 reg.2 s s2 t hs)
        (argSearchToks reg.1 reg.2) st st2 hr)
    P.arguments ([], args0) (parsed, args2) h

theorem flagStep_sublist (longHand : String)
    (st : List (String × Bool) × List String) (tok : String) :
    (flagStep longHand st tok).2.Sublist st.2 := by
  obtain ⟨p, a⟩ := st
  rw [flagStep]
  split
  · exact jsSplice_sublist a _ 1
  · exact List.Sublist.refl _

theorem parseFlags_sublist (P : Parser) (args1 : List String) :
    (P.parseFlags args1).2.Sublist args1 := by
  exact foldl_snd_sublist _
    (fun st reg =>
      foldl_snd_sublist (flagStep reg.1) (fun s t => flagStep_sublist reg.1 s t) _ st)
    P.flags ([], args1)

theorem hasKey_objSet_self {α : Type} (l : List (String × α)) (k : String) (v : α) :
    hasKey (objSet l k v) k = true := by
  rw [objSet]
  split
  · rename_i h
    rw [hasKey, List.any_map]
    rcases List.any_eq_true.mp h with ⟨p, hp, hpk⟩
    refine List.any_eq_true.mpr ⟨p, hp, ?_⟩
    simp only [Function.comp_apply]
    simp only [decide_eq_true_eq] at hpk
    simp [hpk]
  · simp [hasKey, List.any_append]

theorem hasKey_objSet_mono {α : Type} (l : List (String × α)) (k k2 : String) (v : α)
    (h : hasKey l k2 = true) : hasKey (objSet l k v) k2 = true := by
  rw [objSet]
  split
  · rw [hasKey, List.any_map]
    rcases List.any_eq_true.mp h with ⟨p, hp, hpk⟩
    refine List.any_eq_true.mpr ⟨p, hp, ?_⟩
    simp only [Function.comp_apply, decide_eq_true_eq] at *
    by_cases hk : p.1 = k
    · rw [if_pos hk]
      exact hk.symm.trans hpk
    · rw [if_neg hk]
      exact hpk
  · rw [hasKey, List.any_append]
    rw [hasKey] at h
    simp [h]

theorem paramsGo_spec (params : List (String × ParamSpec)) :
    ∀ (pat : List PatternParam) (args : List String)
      (acc out : List (String × JSVal)),
      paramsGo params acc pat args = .ok out →
      ((∀ k, hasKey acc k = true → hasKey out k = true) ∧
        ∀ i (hi : i < args.length) (hp : i < pat.length),
          ∃ spec val,
            objGet params (pat.get ⟨i, hp⟩).name = some spec ∧
            castToType (args.get ⟨i, hi⟩) (some spec.type) = .ok val ∧
            hasKey out (pat.get ⟨i, hp⟩).name = true) := by
  intro pat
  induction pat with
  | nil =>
    intro args acc out h
    rw [paramsGo] at h
    have hacc : acc = out := by simpa using h
    subst hacc
    exact ⟨fun k hk => hk, fun i hi hp => absurd hp (by simp)⟩
  | cons dd ds ih =>
    intro args acc out h
    cases args with
    | nil =>
      rw [paramsGo] at h
      split at h
      · exact absurd h (by simp)
      · obtain ⟨hmono, _⟩ := ih [] acc out h
        exact ⟨hmono, fun i hi hp => absurd hi (by simp)⟩
    | cons a as =>
      rw [paramsGo] at h
      split at h
      · exact absurd h (by simp)
      · rename_i spec hg
        cases hc : castToType a (some spec.type) with
        | error e => rw [hc, exBind_error] at h; exact absurd h (by simp)
        | ok val =>
          rw [hc, exBind_ok] at h
          obtain ⟨hmono, hpoint⟩ := ih as (objSet acc dd.name val) out h
          refine ⟨fun k hk => hmono k (hasKey_objSet_mono acc dd.name k val hk), ?_⟩
          intro i hi hp
          cases i with
          | zero =>
            exact ⟨spec, val, hg, hc, hmono dd.name
              (hasKey_objSet_self acc dd.name val)⟩
          | succ n =>
            exact hpoint n (Nat.lt_of_succ_lt_succ hi) (Nat.lt_of_succ_lt_succ hp)

theorem parseParameters_spec (P : Parser) (args : List String)
    (out : List (String × JSVal)) (h : P.parseParameters args = .ok out) :
    args.length ≤ P.pattern.length ∧
      ∀ i (hi : i < args.length) (hp : i < P.pattern.length),
        ∃ spec val,
          objGet P.parameters (P.pattern.get ⟨i, hp⟩).name = some spec ∧
          castToType (args.get ⟨i, hi⟩) (some spec.type) = .ok val ∧
          hasKey out (P.pattern.get ⟨i, hp⟩).name = true := by
  rw [Parser.parseParameters] at h
  split at h
  · exact absurd h (by simp)
  · rename_i hle
    refine ⟨by omega, ?_⟩
    exact (paramsGo_spec P.parameters P.pattern args [] out h).2

/-- C10: a successful parse leaves in the context's token list exactly the
tokens that were bound positionally: the final list is a subsequence of the
original (order preserved, argument/flag tokens spliced out), it is no
longer than the pattern, and each remaining token was coerced and bound to
the parameter descriptor at its position. -/
theorem c10_parse_frame (P : Parser) (ctx ctx2 : Context) (args0 : List String)
    (h0 : ctx.args = some args0) (h : P.parse ctx = .ok ctx2) :
    ∃ args2 pa,
      ctx2.args = some args2 ∧ ctx2.parsed = some pa ∧
      args2.Sublist args0 ∧
      args2.length ≤ P.pattern.length ∧
      P.parseParameters args2 = .ok pa.parameters ∧
      ∀ i (hi : i < args2.length) (hp : i < P.pattern.length),
        ∃ spec val,
          objGet P.parameters (P.pattern.get ⟨i, hp⟩).name = some spec ∧
          castToType (args2.get ⟨i, hi⟩) (some spec.type) = .ok val ∧
          hasKey pa.parameters (P.pattern.get ⟨i, hp⟩).name = true := by
  simp only [Parser.parse, h0] at h
  cases hA : P.parseArguments args0 with
  | error e => rw [hA, exBind_error] at h; exact absurd h (by simp)
  | ok st1 =>
    obtain ⟨pArgs, args1⟩ := st1
    rw [hA, exBind_ok] at h
    rcases hpf : P.parseFlags args1 with ⟨pFlags, args2⟩
    rw [hpf] at h
    cases hP : P.parseParameters args2 with
    | error e => rw [hP, exBind_error] at h; exact absurd h (by simp)
    | ok pp =>
      rw [hP, exBind_ok] at h
      have hctx2 :
          ctx2 = { ctx with args := some args2, parsed := some ⟨pArgs, pFlags, pp⟩ } := by
        cases h
        rfl
      subst hctx2
      have hsub1 : args1.Sublist args0 :=
        parseArguments_sublist P args0 pArgs args1 hA
      have hsub2 : args2.Sublist args1 := by
        have := parseFlags_sublist P args1
        rw [hpf] at this
        exact this
      obtain ⟨hlen, hpoint⟩ := parseParameters_spec P args2 pp hP
      exact ⟨args2, ⟨pArgs, pFlags, pp⟩, rfl, rfl, hsub2.trans hsub1, hlen, hP,
        hpoint⟩

theorem jsWhitespace_jsLowerChar (c : Char) :
    jsWhitespace (jsLowerChar c) = jsWhitespace c := by
  unfold jsLowerChar
  split <;> first | rfl | (subst_vars; decide)

theorem jsLowerChar_eq_one (c : Char) :
    jsLowerChar c = '1' ↔ c = '1' := by
  unfold jsLowerChar
  split <;> first | rfl | (subst_vars; decide)

theorem jsTrim_jsToLower (v : String) :
    jsTrim (jsToLower v) = jsToLower (jsTrim v) := by
  apply String.ext
  show jsTrimList (v.data.map jsLowerChar) = (jsTrimList v.data).map jsLowerChar
  unfold jsTrimList
  have hcomp : jsWhitespace ∘ jsLowerChar = jsWhitespace := by
    funext c; exact jsWhitespace_jsLowerChar c
  rw [List.dropWhile_map, hcomp, ← List.map_reverse, List.dropWhile_map, hcomp,
    ← List.map_reverse]

theorem jsToLower_eq_one (w : String) :
    jsToLower w = "1" ↔ w = "1" := by
  constructor
  · intro h
    have hd : w.data.map jsLowerChar = ['1'] := by
      have h2 := congrArg String.data h
      simpa [jsToLower] using h2
    apply String.ext
    show w.data = ['1']
    cases hw : w.data with
    | nil => rw [hw] at hd; simp at hd
    | cons c cs =>
      rw [hw] at hd
      simp only [List.map_cons, List.cons.injEq] at hd
      obtain ⟨h1, h2⟩ := hd
      rw [List.map_eq_nil_iff] at h2
      rw [(jsLowerChar_eq_one c).mp h1, h2]
  · intro h; subst h; rfl

/-- C6: boolean coercion is total — it always succeeds with a boolean — and
yields true exactly when the trimmed value compares case-insensitively equal
to "true", "t" or "1"; every other string, including "" and "false2",
yields false. -/
theorem c6_boolean_coercion :
    (∀ v : String, ∃ b : Bool, castToType v (some "boolean") = .ok (.bool b) ∧
      (b = true ↔ (jsToLower (jsTrim v) = "true" ∨ jsToLower (jsTrim v) = "t" ∨
                   jsToLower (jsTrim v) = "1"))) ∧
    castToType "" (some "boolean") = .ok (.bool false) ∧
    castToType "false2" (some "boolean") = .ok (.bool false) := by
  refine ⟨fun v => ⟨_, rfl, ?_⟩, rfl, rfl⟩
  rw [jsTrim_jsToLower]
  simp only [Bool.or_eq_true, decide_eq_true_iff, jsToLower_eq_one, or_assoc]

/-- Witness for the lifecycle theorem: a context without an args property
makes the parse throw and the process exit 1; a well-formed empty context
flows through the default hooks and resolves with the parsed context. -/
theorem c3_witness :
    Command.execute { parser := { pattern := [] } } { } = .exited 1 ∧
    Command.execute { parser := { pattern := [] } } { args := some [] } =
      .resolved { args := some [], parsed := some ⟨[], [], []⟩ } := by
  constructor
  · exact (c3_execute_lifecycle { parser := { pattern := [] } } { }).1
      ⟨"no args found in context - Parser:parse"⟩ rfl
      (fun ctx => .ok ctx) (fun ctx => .ok ctx) (fun ctx => .ok ctx)
  · exact (c3_execute_lifecycle { parser := { pattern := [] } }
      { args := some [] }).2
      { args := some [], parsed := some ⟨[], [], []⟩ }
      { args := some [], parsed := some ⟨[], [], []⟩ }
      { args := some [], parsed := some ⟨[], [], []⟩ }
      { args := some [], parsed := some ⟨[], [], []⟩ }
      rfl rfl rfl rfl

/-- Witness for the frame theorem at a concrete parser and token list. -/
theorem c10_witness :
    ∃ args2 pa,
      aCtx2.args = some args2 ∧ aCtx2.parsed = some pa ∧
      args2.Sublist ["x"] ∧
      args2.length ≤ aParser.pattern.length ∧
      aParser.parseParameters args2 = .ok pa.parameters ∧
      ∀ i (hi : i < args2.length) (hp : i < aParser.pattern.length),
        ∃ spec val,
          objGet aParser.parameters (aParser.pattern.get ⟨i, hp⟩).name = some spec ∧
          castToType (args2.get ⟨i, hi⟩) (some spec.type) = .ok val ∧
          hasKey pa.parameters (aParser.pattern.get ⟨i, hp⟩).name = true :=
  c10_parse_frame aParser aCtx aCtx2 ["x"] rfl rfl
